import Mathlib

/-!
Verification of the token_deque crate.

Shallow embedding of the `token_deque` Rust crate: a double-ended queue
backed by a slot arena (`Vec<Slot<T>>`) with generation-stamped tokens.

Modelling conventions:
* `usize::MAX` (the `NONE` sentinel) is `NONE = 2 ^ 64 - 1`.
* Indices, generations and counts are `Nat`.
* A Rust panic (out-of-bounds indexing, `Option::unwrap` on `None`,
  `checked_add(..).unwrap()` overflow) is modelled by the operation
  returning `none` at the outer `Option` layer. An operation that in Rust
  returns `Option<X>` and may also panic is therefore modelled as
  `Deque T → Option (Option X × Deque T)`: the outer `Option` is
  panic/no-panic, the inner one is the Rust return value.
* The backing `Vec<Slot<T>>` is a `List (Slot T)` plus a `cap` field
  recording `Vec::capacity`. Growth follows `RawVec::grow_amortized`
  (`new_cap = max (2 * cap) required`); the type-size-dependent
  `MIN_NON_ZERO_CAP` constant of `RawVec` is not modelled, which only
  affects the exact capacity value after growth from a small capacity,
  never whether growth happens.
-/

namespace TokenDeque

/-- The sentinel `usize::MAX`, called `NONE` in the spec. -/
def NONE : Nat := 2 ^ 64 - 1

/-- Models `Slot<T>` from `slot.rs`: `Free { next }` or
`Used { front, back, generation, data }`. -/
inductive Slot (T : Type) where
  | free (next : Nat)
  | used (front back generation : Nat) (data : T)
deriving DecidableEq, Repr

/-- Models `Token` from `token.rs`: an (index, generation) pair. -/
structure Token where
  ix : Nat
  generation : Nat
deriving DecidableEq, Repr

/-- Models `Deque<T>` from `deque.rs`, plus `cap` recording the capacity of the
backing `Vec` (`self.slots.capacity()`). -/
structure Deque (T : Type) where
  free_list : Nat
  front : Nat
  back : Nat
  next_generation : Nat
  len_used : Nat
  len_free : Nat
  slots : List (Slot T)
  cap : Nat
deriving DecidableEq, Repr

variable {T : Type}

/-- Models `Deque::new()`. -/
def new : Deque T :=
  { free_list := NONE, front := NONE, back := NONE, next_generation := 0,
    len_used := 0, len_free := 0, slots := [], cap := 0 }

/-- The deque produced by `#[derive(Default)]`: every field takes its own
`Default::default()`, so all the `usize` fields are `0` (not the `NONE`
sentinel that `Deque::new()` uses) and the vector is empty. -/
def defaultDeque : Deque T :=
  { free_list := 0, front := 0, back := 0, next_generation := 0,
    len_used := 0, len_free := 0, slots := [], cap := 0 }

/-- Models `Deque::with_capacity(capacity)`: a `Vec` of `capacity` free slots,
each pointing at the previously pushed one (`next` starts at `usize::MAX`
and is updated to `i` after pushing slot `i`), with `free_list` left at
the final value of `next`. -/
def with_capacity (capacity : Nat) : Deque T :=
  let r := (List.range capacity).foldl
    (fun (acc : List (Slot T) × Nat) i => (acc.1 ++ [Slot.free acc.2], i))
    ([], NONE)
  { free_list := r.2, front := NONE, back := NONE, next_generation := 0,
    len_used := 0, len_free := capacity, slots := r.1, cap := capacity }

/-- Models `Vec::push` on the slot vector: appends, growing the capacity
amortizedly when full. -/
def vecPush (d : Deque T) (s : Slot T) : Deque T :=
  { d with slots := d.slots ++ [s],
           cap := if d.slots.length < d.cap then d.cap
                  else max (2 * d.cap) (d.slots.length + 1) }

/-- Models `Deque::reserve(additional)`, i.e. `Vec::reserve`: does nothing when
the spare capacity already covers `additional`, otherwise grows
amortizedly to at least `len + additional`. -/
def reserve (d : Deque T) (additional : Nat) : Deque T :=
  if additional ≤ d.cap - d.slots.length then d
  else { d with cap := max (2 * d.cap) (d.slots.length + additional) }

/-- Models `Deque::capacity()`. -/
def capacity (d : Deque T) : Nat := d.cap

/-- Models `Deque::len()`. -/
def len (d : Deque T) : Nat := d.len_used

/-- Models `Deque::is_empty()`. -/
def is_empty (d : Deque T) : Bool := d.len_used = 0

/-- Models `Deque::len_freelist()`. -/
def len_freelist (d : Deque T) : Nat := d.len_free

/-- Models `self.slots[ix].get_used_mut().unwrap().set_front(nf)`: `none`
is the panic when `ix` is out of bounds or the slot is free. -/
def setFrontU (d : Deque T) (ix nf : Nat) : Option (Deque T) :=
  match d.slots.get? ix with
  | some (.used _ b g v) => some { d with slots := d.slots.set ix (.used nf b g v) }
  | _ => none

/-- Models `self.slots[ix].get_used_mut().unwrap().set_back(nb)`. -/
def setBackU (d : Deque T) (ix nb : Nat) : Option (Deque T) :=
  match d.slots.get? ix with
  | some (.used f _ g v) => some { d with slots := d.slots.set ix (.used f nb g v) }
  | _ => none

/-- Models `Deque::free(ix)` followed by the caller's `.into_used().unwrap()`:
requires the slot to be `Used` (its `debug_assert!` / the caller's
`unwrap`), swaps in `Free { next: free_list }`, points `free_list` at
`ix`, and returns the detached `(front, data, back)`. -/
def freeSlot (d : Deque T) (ix : Nat) : Option ((Nat × T × Nat) × Deque T) :=
  match d.slots.get? ix with
  | some (.used f b _ v) =>
    some ((f, v, b),
      { d with len_used := d.len_used - 1,
               slots := d.slots.set ix (.free d.free_list),
               free_list := ix,
               len_free := d.len_free + 1 })
  | _ => none

/-- Models `Deque::allocate(front, back, data)`: takes the next generation
(`checked_add(1).unwrap()` panics at `usize::MAX`), bumps `len_used`, and
either reuses the free-list head (which must be a `Free` slot:
`get_free().unwrap()`) or pushes a new slot. Returns `(ix, generation)`
with the updated deque. -/
def allocate (d : Deque T) (front back : Nat) (data : T) :
    Option (Nat × Nat × Deque T) :=
  if NONE ≤ d.next_generation then none
  else
    let generation := d.next_generation
    let d1 := { d with next_generation := d.next_generation + 1,
                       len_used := d.len_used + 1 }
    let s : Slot T := .used front back generation data
    if d1.free_list = NONE then
      let d2 := vecPush d1 s
      some (d2.slots.length - 1, generation, d2)
    else
      match d1.slots.get? d1.free_list with
      | some (.free next) =>
        some (d1.free_list, generation,
          { d1 with slots := d1.slots.set d1.free_list s,
                    free_list := next,
                    len_free := d1.len_free - 1 })
      | _ => none

/-- Models `Deque::push_front(data)`. -/
def push_front (d : Deque T) (data : T) : Option (Token × Deque T) := do
  let (new_ix, g, d1) ← allocate d NONE d.front data
  let s2 := if d1.front ≠ NONE then setFrontU d1 d1.front new_ix else some d1
  let d2 ← s2
  let d3 := { d2 with front := new_ix }
  let d4 := if d3.back = NONE then { d3 with back := new_ix } else d3
  some (⟨new_ix, g⟩, d4)

/-- Models `Deque::push_back(data)`. -/
def push_back (d : Deque T) (data : T) : Option (Token × Deque T) := do
  let (new_ix, g, d1) ← allocate d d.back NONE data
  let s2 := if d1.back ≠ NONE then setBackU d1 d1.back new_ix else some d1
  let d2 ← s2
  let d3 := { d2 with back := new_ix }
  let d4 := if d3.front = NONE then { d3 with front := new_ix } else d3
  some (⟨new_ix, g⟩, d4)

/-- Models `Deque::remove_unchecked(ix)`. -/
def remove_unchecked (d : Deque T) (ix : Nat) : Option (T × Deque T) := do
  let ((f, v, b), d1) ← freeSlot d ix
  let s2 := if d1.front = ix then some { d1 with front := b } else setBackU d1 f b
  let d2 ← s2
  let s3 := if d2.back = ix then some { d2 with back := f } else setFrontU d2 b f
  let d3 ← s3
  some (v, d3)

/-- Models `Deque::pop_front()`. -/
def pop_front (d : Deque T) : Option (Option T × Deque T) :=
  if d.front ≠ NONE then do
    let (v, d1) ← remove_unchecked d d.front
    some (some v, d1)
  else some (none, d)

/-- Models `Deque::pop_back()`. -/
def pop_back (d : Deque T) : Option (Option T × Deque T) :=
  if d.back ≠ NONE then do
    let (v, d1) ← remove_unchecked d d.back
    some (some v, d1)
  else some (none, d)

/-- Models `Deque::get(token)`: bounds check, `Used` check, generation check. -/
def get (d : Deque T) (t : Token) : Option T :=
  match d.slots.get? t.ix with
  | some (.used _ _ g v) => if g = t.generation then some v else none
  | _ => none

/-- Models `Deque::get_mut(token)`, which performs the same validation as `get`; the
returned mutable reference is not itself modelled. -/
def get_mut (d : Deque T) (t : Token) : Option T := get d t

/-- Models `Deque::remove(token)`: validation, then `remove_unchecked`. -/
def remove (d : Deque T) (t : Token) : Option (Option T × Deque T) :=
  match d.slots.get? t.ix with
  | some (.used _ _ g _) =>
    if g = t.generation then do
      let (v, d1) ← remove_unchecked d t.ix
      some (some v, d1)
    else some (none, d)
  | _ => some (none, d)

/-- Models `Deque::move_to_front(t)`. The `(f, b)` pair is read during
validation, before any mutation, exactly as in the source. -/
def move_to_front (d : Deque T) (t : Token) : Option (Option Unit × Deque T) :=
  match d.slots.get? t.ix with
  | some (.used f b g _) =>
    if g = t.generation then
      if d.front = t.ix then some (some (), d)
      else do
        let d1 ← setFrontU d t.ix NONE
        let d2 ← setBackU d1 t.ix d.front
        let d3 ← setBackU d2 f b
        let s4 := if b ≠ NONE then setFrontU d3 b f else some { d3 with back := f }
        let d4 ← s4
        let d5 ← setFrontU d4 d.front t.ix
        some (some (), { d5 with front := t.ix })
    else some (none, d)
  | _ => some (none, d)

/-- Models `Deque::move_to_back(t)`. -/
def move_to_back (d : Deque T) (t : Token) : Option (Option Unit × Deque T) :=
  match d.slots.get? t.ix with
  | some (.used f b g _) =>
    if g = t.generation then
      if d.back = t.ix then some (some (), d)
      else do
        let d1 ← setFrontU d t.ix d.back
        let d2 ← setBackU d1 t.ix NONE
        let s3 := if f ≠ NONE then setBackU d2 f b else some { d2 with front := b }
        let d3 ← s3
        let d4 ← setFrontU d3 b f
        let d5 ← setBackU d4 d.back t.ix
        some (some (), { d5 with back := t.ix })
    else some (none, d)
  | _ => some (none, d)

/-- Models the token-validation read that opens `swap`, `move_to_front`
and `move_to_back`: bounds check, `Used` check and generation check, then
the `(front, back)` pair of the slot. -/
def validateLinks (d : Deque T) (t : Token) : Option (Nat × Nat) :=
  match d.slots.get? t.ix with
  | some (.used f b g _) => if g = t.generation then some (f, b) else none
  | _ => none

/-- Models `Deque::swap(i, j)`: both `(front, back)` pairs are read up front;
on success the eight link/end updates happen in source order. -/
def swap (d : Deque T) (ti tj : Token) : Option (Option Unit × Deque T) :=
  match validateLinks d ti, validateLinks d tj with
  | some (i_front, i_back), some (j_front, j_back) => do
    let d1 ← setFrontU d ti.ix j_front
    let d2 ← setBackU d1 ti.ix j_back
    let s3 := if i_front ≠ NONE then setBackU d2 i_front tj.ix
              else some { d2 with front := tj.ix }
    let d3 ← s3
    let s4 := if i_back ≠ NONE then setFrontU d3 i_back tj.ix
              else some { d3 with back := tj.ix }
    let d4 ← s4
    let d5 ← setFrontU d4 tj.ix i_front
    let d6 ← setBackU d5 tj.ix i_back
    let s7 := if j_front ≠ NONE then setBackU d6 j_front ti.ix
              else some { d6 with front := ti.ix }
    let d7 ← s7
    let s8 := if j_back ≠ NONE then setFrontU d7 j_back ti.ix
              else some { d7 with back := ti.ix }
    let d8 ← s8
    some (some (), d8)
  | _, _ => some (none, d)

/-- Forward traversal (`IterFront`): repeatedly follow `back` links from
`ix`, collecting payloads. `fuel` bounds the walk; the Rust iterator has
no such bound and visits a free slot only by panicking (a case no theorem
below relies on: the walk is cut short there). -/
def iterFrontAux (d : Deque T) : Nat → Nat → List T
  | _, 0 => []
  | ix, fuel + 1 =>
    if ix = NONE then []
    else match d.slots.get? ix with
      | some (.used _ b _ v) => v :: iterFrontAux d b fuel
      | _ => []

/-- The index at which the forward walk stands after `fuel` steps
(`NONE` once the traversal has terminated). -/
def iterFrontIx (d : Deque T) : Nat → Nat → Nat
  | ix, 0 => ix
  | ix, fuel + 1 =>
    if ix = NONE then NONE
    else match d.slots.get? ix with
      | some (.used _ b _ _) => iterFrontIx d b fuel
      | _ => ix

/-- Backward traversal (`IterBack`): follow `front` links from `ix`. -/
def iterBackAux (d : Deque T) : Nat → Nat → List T
  | _, 0 => []
  | ix, fuel + 1 =>
    if ix = NONE then []
    else match d.slots.get? ix with
      | some (.used f _ _ v) => v :: iterBackAux d f fuel
      | _ => []

/-- Collects `iter_front()` with explicit fuel. -/
def iter_front (d : Deque T) (fuel : Nat) : List T := iterFrontAux d d.front fuel

/-- Collects `iter_back()` with explicit fuel. -/
def iter_back (d : Deque T) (fuel : Nat) : List T := iterBackAux d d.back fuel

/-- One `DrainFront::next()` step applied repeatedly (collecting the
whole drain): each step frees the slot under the cursor and follows its
`back` link; `front`/`back` of the deque are never touched, exactly as in
`iterators.rs`. -/
def drainFrontAux (d : Deque T) : Nat → Nat → Option (List T × Deque T)
  | _, 0 => some ([], d)
  | ix, fuel + 1 =>
    if ix = NONE then some ([], d)
    else do
      let ((_, v, b), d1) ← freeSlot d ix
      let (rest, d2) ← drainFrontAux d1 b fuel
      some (v :: rest, d2)

/-- Collects `drain_front()` with explicit fuel. -/
def drain_front (d : Deque T) (fuel : Nat) : Option (List T × Deque T) :=
  drainFrontAux d d.front fuel

/-- Models the `DrainBack` analogue of `drainFrontAux`. -/
def drainBackAux (d : Deque T) : Nat → Nat → Option (List T × Deque T)
  | _, 0 => some ([], d)
  | ix, fuel + 1 =>
    if ix = NONE then some ([], d)
    else do
      let ((f, v, _), d1) ← freeSlot d ix
      let (rest, d2) ← drainBackAux d1 f fuel
      some (v :: rest, d2)

/-- Collects `drain_back()` with explicit fuel. -/
def drain_back (d : Deque T) (fuel : Nat) : Option (List T × Deque T) :=
  drainBackAux d d.back fuel

/-- Models `CursorMut::remove_front` from `cursor.rs`, with the cursor's focus
passed explicitly: removes the neighbour in front of the focus, re-links
the focus to that neighbour's own front, and fixes that slot's back link
when it exists. Note the source never updates `self.target.front`. -/
def cursor_remove_front (d : Deque T) (focus : Nat) :
    Option (Option T × Deque T) :=
  match d.slots.get? focus with
  | some (.used f _ _ _) =>
    if f = NONE then some (none, d)
    else do
      let ((ffront, v, _), d1) ← freeSlot d f
      let d2 ← setFrontU d1 focus ffront
      let d3 ← if ffront ≠ NONE then setBackU d2 ffront focus else some d2
      some (some v, d3)
  | _ => none

/-- Models `CursorMut::remove_back`, symmetric to `cursor_remove_front`; the
source never updates `self.target.back`. -/
def cursor_remove_back (d : Deque T) (focus : Nat) :
    Option (Option T × Deque T) :=
  match d.slots.get? focus with
  | some (.used _ b _ _) =>
    if b = NONE then some (none, d)
    else do
      let ((_, v, bback), d1) ← freeSlot d b
      let d2 ← setBackU d1 focus bback
      let d3 ← if bback ≠ NONE then setFrontU d2 bback focus else some d2
      some (some v, d3)
  | _ => none

/-! Public façade operations as a small-step system, for statements that
quantify over operation sequences. -/

/-- One public mutating façade operation. -/
inductive Op (T : Type) where
  | pushF (v : T)
  | pushB (v : T)
  | popF
  | popB
  | rem (t : Token)
  | mtf (t : Token)
  | mtb (t : Token)
  | swp (a b : Token)

/-- Runs one operation, keeping only the resulting state (`none` models a
panic). -/
def step : Op T → Deque T → Option (Deque T)
  | .pushF v, d => (push_front d v).map (·.2)
  | .pushB v, d => (push_back d v).map (·.2)
  | .popF, d => (pop_front d).map (·.2)
  | .popB, d => (pop_back d).map (·.2)
  | .rem t, d => (remove d t).map (·.2)
  | .mtf t, d => (move_to_front d t).map (·.2)
  | .mtb t, d => (move_to_back d t).map (·.2)
  | .swp a b, d => (swap d a b).map (·.2)

/-- Runs a list of operations left to right; `none` as soon as one
panics. -/
def runOps : List (Op T) → Deque T → Option (Deque T)
  | [], d => some d
  | e :: l, d =>
    match step e d with
    | some d1 => runOps l d1
    | none => none

/-- One slot respects a generation bound. -/
def slotGenOk (n : Nat) : Slot T → Prop
  | .free _ => True
  | .used _ _ g _ => g < n

instance (n : Nat) : ∀ s : Slot T, Decidable (slotGenOk n s)
  | .free _ => isTrue trivial
  | .used _ _ g _ => inferInstanceAs (Decidable (g < n))

/-- The generation invariant of section 3 of the spec: every `Used` slot
carries a generation strictly below the counter `next_generation`. -/
def GenInv (d : Deque T) : Prop :=
  ∀ s ∈ d.slots, slotGenOk d.next_generation s

instance (d : Deque T) : Decidable (GenInv d) :=
  List.decidableBAll _ d.slots

/-- How one operation may rewrite the arena: the generation counter never
decreases, and every `Used` slot of the new state either keeps the
generation and payload it had at the same index, or was freshly written
with a generation taken from the counter interval of the step. -/
def Evolves (d d' : Deque T) : Prop :=
  d.next_generation ≤ d'.next_generation ∧
  ∀ i f b g v, d'.slots.get? i = some (.used f b g v) →
    (∃ f0 b0, d.slots.get? i = some (.used f0 b0 g v)) ∨
      (d.next_generation ≤ g ∧ g < d'.next_generation)

/-- Per-slot preservation of generation and payload: every `Used` slot of
the old state is still `Used` at the same index with the same generation
and the same payload (only its links may differ). Operations that merely
rewire links satisfy this. -/
def PreservesUD (d d' : Deque T) : Prop :=
  ∀ i f b g v, d.slots.get? i = some (.used f b g v) →
    ∃ f' b', d'.slots.get? i = some (.used f' b' g v)

/-- The operation frees the slot addressed by the token `t`: a front pop
when `t` sits at the chain front, a back pop when it sits at the chain
back, or a remove through a token that validates and aliases the same
slot. Pushes, moves and swaps never free a slot. -/
def freesTokenSlot : Op T → Deque T → Token → Prop
  | .popF, d, t => d.front = t.ix
  | .popB, d, t => d.back = t.ix
  | .rem u, d, t => u.ix = t.ix ∧ get d u ≠ none
  | _, _, _ => False

/-! Concrete scenario states used by the claim theorems and witnesses. -/

/-- Builds the deque [1, 2, 3] by three pushes at the back, returning the
three tokens with the final state. -/
def dq123 : Option (Token × Token × Token × Deque Nat) := do
  let (t1, d1) ← push_back (new : Deque Nat) 1
  let (t2, d2) ← push_back d1 2
  let (t3, d3) ← push_back d2 3
  some (t1, t2, t3, d3)

/-- Builds the deque [1, 2] by two pushes at the back. -/
def dq12 : Option (Token × Token × Deque Nat) := do
  let (ta, d1) ← push_back (new : Deque Nat) 1
  let (tb, d2) ← push_back d1 2
  some (ta, tb, d2)

/-- The state reached by pushing 5 on an empty deque. -/
def w5_d1 : Deque Nat :=
  (Option.map (fun p => p.2) (push_back (new : Deque Nat) 5)).getD new

/-- The token of that first push. -/
def w5_t : Token :=
  (Option.map (fun p => p.1) (push_back (new : Deque Nat) 5)).getD ⟨0, 0⟩

/-- The state after popping the single element again: slot 0 is free and
the token `w5_t` is stale. -/
def w5_d2 : Deque Nat := (Option.map (fun p => p.2) (pop_front w5_d1)).getD new

/-- The state after additionally pushing 7, which reallocates slot 0 with
a fresh generation. -/
def w5_d3 : Deque Nat := (runOps [Op.pushB 7] w5_d2).getD new

/-- The state after pushing 9 at the back of the one-element deque
holding 5: a non-freeing operation for the token of 5. -/
def w5_d4 : Deque Nat := (step (Op.pushB 9) w5_d1).getD new

/-- The deque [1, 2, 3] itself. -/
def w9_d : Deque Nat := (dq123.map (fun p => p.2.2.2)).getD new

/-- The token of element 1 (the chain front) in [1, 2, 3]. -/
def w9_t1 : Token := (dq123.map (fun p => p.1)).getD ⟨0, 0⟩

/-- The token of element 2 (an interior slot) in [1, 2, 3]. -/
def w9_t2 : Token := (dq123.map (fun p => p.2.1)).getD ⟨0, 0⟩

/-- The token of element 3 (the chain back) in [1, 2, 3]. -/
def w9_t3 : Token := (dq123.map (fun p => p.2.2.1)).getD ⟨0, 0⟩

/-- The state after move_to_front of element 2 in [1, 2, 3]. -/
def w9_mtf : Deque Nat :=
  ((move_to_front w9_d w9_t2).map (fun p => p.2)).getD new

/-- The state after move_to_back of element 2 in [1, 2, 3]. -/
def w9_mtb : Deque Nat :=
  ((move_to_back w9_d w9_t2).map (fun p => p.2)).getD new

/-- with_capacity 3 followed by four pushes at the back. -/
def c10_state : Option (Deque Nat) := do
  let (_, d1) ← push_back (with_capacity 3 : Deque Nat) 1
  let (_, d2) ← push_back d1 2
  let (_, d3) ← push_back d2 3
  let (_, d4) ← push_back d3 4
  some d4

/-- An empty deque whose backing storage was grown to capacity 10 by
reserve. -/
def c10_r1 : Deque Nat := reserve (new : Deque Nat) 10

theorem evolves_rfl (d : Deque T) : Evolves d d :=
  ⟨Nat.le_refl _, fun i f b g v h => .inl ⟨f, b, h⟩⟩

theorem evolves_trans {d d1 d2 : Deque T} (h1 : Evolves d d1)
    (h2 : Evolves d1 d2) : Evolves d d2 := by
  refine ⟨Nat.le_trans h1.1 h2.1, fun i f b g v h => ?_⟩
  rcases h2.2 i f b g v h with ⟨f0, b0, h0⟩ | ⟨hl, hr⟩
  · rcases h1.2 i f0 b0 g v h0 with ⟨f1, b1, h3⟩ | ⟨hl, hr⟩
    · exact .inl ⟨f1, b1, h3⟩
    · exact .inr ⟨hl, Nat.lt_of_lt_of_le hr h2.1⟩
  · exact .inr ⟨Nat.le_trans h1.1 hl, hr⟩

theorem evolves_congr {d d2 d3 : Deque T} (h : Evolves d d2)
    (hs : d3.slots = d2.slots) (hn : d3.next_generation = d2.next_generation) :
    Evolves d d3 := by
  refine ⟨hn ▸ h.1, fun i f b g v hi => ?_⟩
  rw [hs] at hi
  rcases h.2 i f b g v hi with h1 | h2
  · exact .inl h1
  · exact .inr ⟨h2.1, hn ▸ h2.2⟩

theorem geninv_of_evolves {d d' : Deque T} (hg : GenInv d)
    (he : Evolves d d') : GenInv d' := by
  intro s hs
  rcases List.mem_iff_get?.1 hs with ⟨i, hi⟩
  cases s with
  | free nx => trivial
  | used f b g v =>
    rcases he.2 i f b g v hi with ⟨f0, b0, h0⟩ | ⟨_, hr⟩
    · exact Nat.lt_of_lt_of_le (hg _ (List.get?_mem h0)) he.1
    · exact hr

/-! Characterisations of the primitive arena mutators. -/

theorem setFrontU_eq {d d' : Deque T} {ix nf : Nat}
    (h : setFrontU d ix nf = some d') :
    ∃ f b g v, d.slots.get? ix = some (.used f b g v) ∧
      d' = { d with slots := d.slots.set ix (.used nf b g v) } := by
  unfold setFrontU at h
  split at h
  next f b g v hs => exact ⟨f, b, g, v, hs, (Option.some.inj h).symm⟩
  next => exact absurd h (by simp)

theorem setBackU_eq {d d' : Deque T} {ix nb : Nat}
    (h : setBackU d ix nb = some d') :
    ∃ f b g v, d.slots.get? ix = some (.used f b g v) ∧
      d' = { d with slots := d.slots.set ix (.used f nb g v) } := by
  unfold setBackU at h
  split at h
  next f b g v hs => exact ⟨f, b, g, v, hs, (Option.some.inj h).symm⟩
  next => exact absurd h (by simp)

theorem freeSlot_eq {d d' : Deque T} {ix : Nat} {r : Nat × T × Nat}
    (h : freeSlot d ix = some (r, d')) :
    ∃ f b g v, d.slots.get? ix = some (.used f b g v) ∧ r = (f, v, b) ∧
      d' = { d with len_used := d.len_used - 1,
                    slots := d.slots.set ix (.free d.free_list),
                    free_list := ix,
                    len_free := d.len_free + 1 } := by
  unfold freeSlot at h
  split at h
  next f b g v hs =>
    obtain ⟨h1, h2⟩ := Prod.mk.inj (Option.some.inj h)
    exact ⟨f, b, g, v, hs, h1.symm, h2.symm⟩
  next => exact absurd h (by simp)

theorem setFrontU_evolves {d d' : Deque T} {ix nf : Nat}
    (h : setFrontU d ix nf = some d') :
    Evolves d d' ∧ d'.next_generation = d.next_generation := by
  obtain ⟨f, b, g, v, hs, rfl⟩ := setFrontU_eq h
  refine ⟨⟨Nat.le_refl _, fun i fi bi gi vi hi => ?_⟩, rfl⟩
  by_cases hix : ix = i
  · subst hix
    rw [List.get?_set_eq_of_lt _ (by
      rcases List.get?_eq_some.1 hs with ⟨hlt, _⟩; exact hlt)] at hi
    obtain ⟨_, _, h3, h4⟩ := Slot.used.inj (Option.some.inj hi)
    exact .inl ⟨f, b, by rw [hs, h3, h4]⟩
  · rw [List.get?_set_ne _ _ hix] at hi
    exact .inl ⟨fi, bi, hi⟩

theorem setBackU_evolves {d d' : Deque T} {ix nb : Nat}
    (h : setBackU d ix nb = some d') :
    Evolves d d' ∧ d'.next_generation = d.next_generation := by
  obtain ⟨f, b, g, v, hs, rfl⟩ := setBackU_eq h
  refine ⟨⟨Nat.le_refl _, fun i fi bi gi vi hi => ?_⟩, rfl⟩
  by_cases hix : ix = i
  · subst hix
    rw [List.get?_set_eq_of_lt _ (by
      rcases List.get?_eq_some.1 hs with ⟨hlt, _⟩; exact hlt)] at hi
    obtain ⟨_, _, h3, h4⟩ := Slot.used.inj (Option.some.inj hi)
    exact .inl ⟨f, b, by rw [hs, h3, h4]⟩
  · rw [List.get?_set_ne _ _ hix] at hi
    exact .inl ⟨fi, bi, hi⟩

theorem freeSlot_evolves {d d' : Deque T} {ix : Nat} {r : Nat × T × Nat}
    (h : freeSlot d ix = some (r, d')) :
    Evolves d d' ∧ d'.next_generation = d.next_generation := by
  obtain ⟨f, b, g, v, hs, hr, rfl⟩ := freeSlot_eq h
  refine ⟨⟨Nat.le_refl _, fun i fi bi gi vi hi => ?_⟩, rfl⟩
  by_cases hix : ix = i
  · subst hix
    rw [List.get?_set_eq_of_lt _ (by
      rcases List.get?_eq_some.1 hs with ⟨hlt, _⟩; exact hlt)] at hi
    exact absurd (Option.some.inj hi) (by simp)
  · rw [List.get?_set_ne _ _ hix] at hi
    exact .inl ⟨fi, bi, hi⟩

theorem setFrontU_genData {d d' : Deque T} {j x : Nat}
    (h : setFrontU d j x = some d') {i f b g : Nat} {v : T}
    (hi : d.slots.get? i = some (.used f b g v)) :
    ∃ f' b', d'.slots.get? i = some (.used f' b' g v) := by
  obtain ⟨f0, b0, g0, v0, hs, rfl⟩ := setFrontU_eq h
  by_cases hj : j = i
  · subst hj
    rw [hs] at hi
    injection Option.some.inj hi with h1 h2 h3 h4
    subst h1; subst h2; subst h3; subst h4
    have hlt : j < d.slots.length := by
      rcases List.get?_eq_some.1 hs with ⟨hlt, -⟩; exact hlt
    exact ⟨x, b0, by rw [List.get?_set_eq_of_lt _ hlt]⟩
  · exact ⟨f, b, by rw [List.get?_set_ne _ _ hj]; exact hi⟩

theorem setBackU_genData {d d' : Deque T} {j x : Nat}
    (h : setBackU d j x = some d') {i f b g : Nat} {v : T}
    (hi : d.slots.get? i = some (.used f b g v)) :
    ∃ f' b', d'.slots.get? i = some (.used f' b' g v) := by
  obtain ⟨f0, b0, g0, v0, hs, rfl⟩ := setBackU_eq h
  by_cases hj : j = i
  · subst hj
    rw [hs] at hi
    injection Option.some.inj hi with h1 h2 h3 h4
    subst h1; subst h2; subst h3; subst h4
    have hlt : j < d.slots.length := by
      rcases List.get?_eq_some.1 hs with ⟨hlt, -⟩; exact hlt
    exact ⟨f0, x, by rw [List.get?_set_eq_of_lt _ hlt]⟩
  · exact ⟨f, b, by rw [List.get?_set_ne _ _ hj]; exact hi⟩

theorem allocate_spec {d : Deque T} {fr bk ix g : Nat} {v : T} {d' : Deque T}
    (h : allocate d fr bk v = some (ix, g, d')) :
    g = d.next_generation ∧ d'.next_generation = d.next_generation + 1 ∧
    d'.slots.get? ix = some (.used fr bk g v) ∧ Evolves d d' := by
  unfold allocate at h
  split at h
  next => exact absurd h (by simp)
  next hng =>
    dsimp only at h
    split at h
    next hfl =>
      simp only [Option.some.injEq, Prod.mk.injEq] at h
      obtain ⟨hix, hg, hd⟩ := h
      subst hg; subst hd
      have hlen : (vecPush
          { d with next_generation := d.next_generation + 1,
                   len_used := d.len_used + 1 }
          (Slot.used fr bk d.next_generation v)).slots.length
          = d.slots.length + 1 := by
        simp [vecPush]
      refine ⟨rfl, rfl, ?_, Nat.le_succ _, ?_⟩
      · rw [← hix, hlen]
        simpa [vecPush] using
          List.get?_concat_length d.slots (Slot.used fr bk d.next_generation v)
      · intro i fi bi gi vi hi
        simp only [vecPush] at hi
        by_cases hlt : i < d.slots.length
        · rw [List.get?_append hlt] at hi
          exact .inl ⟨fi, bi, hi⟩
        · by_cases heq : i = d.slots.length
          · subst heq
            rw [List.get?_concat_length] at hi
            injection Option.some.inj hi with h1 h2 h3 h4
            subst h3
            exact .inr ⟨Nat.le_refl _, Nat.lt_succ_self _⟩
          · rw [List.get?_append_right (Nat.le_of_not_lt hlt)] at hi
            rw [List.get?_len_le (by
              simp only [List.length_singleton]; omega)] at hi
            exact absurd hi (by simp)
    next hfl =>
      split at h
      next nx hget =>
        simp only [Option.some.injEq, Prod.mk.injEq] at h
        obtain ⟨hix, hg, hd⟩ := h
        subst hg; subst hd; subst hix
        have hlt : d.free_list < d.slots.length := by
          rcases List.get?_eq_some.1 hget with ⟨hlt, -⟩; exact hlt
        refine ⟨rfl, rfl, ?_, Nat.le_succ _, ?_⟩
        · exact List.get?_set_eq_of_lt _ hlt
        · intro i fi bi gi vi hi
          by_cases hj : d.free_list = i
          · subst hj
            rw [List.get?_set_eq_of_lt _ hlt] at hi
            injection Option.some.inj hi with h1 h2 h3 h4
            subst h3
            exact .inr ⟨Nat.le_refl _, Nat.lt_succ_self _⟩
          · rw [List.get?_set_ne _ _ hj] at hi
            exact .inl ⟨fi, bi, hi⟩
      next => exact absurd h (by simp)

theorem evolves_if_gen {d d' : Deque T} {c : Prop} [Decidable c]
    {o1 o2 : Option (Deque T)} (h : (if c then o1 else o2) = some d')
    (h1 : o1 = some d' → Evolves d d') (h2 : o2 = some d' → Evolves d d') :
    Evolves d d' := by
  split at h
  exacts [h1 h, h2 h]

theorem evolves_some_rec {d d2 d' : Deque T} (h : some d2 = some d')
    (hs : d2.slots = d.slots) (hn : d2.next_generation = d.next_generation) :
    Evolves d d' := by
  cases Option.some.inj h
  exact evolves_congr (evolves_rfl d) hs hn

theorem bind_some_inv {A B : Type} {p : Option A} {f : A → Option B} {y : B}
    (h : p >>= f = some y) : ∃ a, p = some a ∧ f a = some y := by
  cases p with
  | none => exact absurd h (by simp)
  | some a => exact ⟨a, rfl, h⟩

theorem remove_unchecked_evolves {d d' : Deque T} {ix : Nat} {v : T}
    (h : remove_unchecked d ix = some (v, d')) : Evolves d d' := by
  unfold remove_unchecked at h
  obtain ⟨⟨⟨f, v0, b⟩, d1⟩, h1, h⟩ := bind_some_inv h
  obtain ⟨d2, h2, h⟩ := bind_some_inv h
  obtain ⟨d3, h3, h⟩ := bind_some_inv h
  simp only [Option.some.injEq, Prod.mk.injEq] at h
  obtain ⟨-, hd⟩ := h
  subst hd
  have e1 : Evolves d d1 := (freeSlot_evolves h1).1
  have e2 : Evolves d1 d2 := evolves_if_gen h2
    (fun hh => evolves_some_rec hh rfl rfl)
    (fun hh => (setBackU_evolves hh).1)
  have e3 : Evolves d2 d3 := evolves_if_gen h3
    (fun hh => evolves_some_rec hh rfl rfl)
    (fun hh => (setFrontU_evolves hh).1)
  exact evolves_trans e1 (evolves_trans e2 e3)

theorem pop_front_evolves {d d' : Deque T} {r : Option T}
    (h : pop_front d = some (r, d')) : Evolves d d' := by
  unfold pop_front at h
  split at h
  · obtain ⟨⟨v1, d1⟩, h1, h⟩ := bind_some_inv h
    simp only [Option.some.injEq, Prod.mk.injEq] at h
    obtain ⟨-, hd⟩ := h
    subst hd
    exact remove_unchecked_evolves h1
  · simp only [Option.some.injEq, Prod.mk.injEq] at h
    obtain ⟨-, hd⟩ := h
    subst hd
    exact evolves_rfl d

theorem pop_back_evolves {d d' : Deque T} {r : Option T}
    (h : pop_back d = some (r, d')) : Evolves d d' := by
  unfold pop_back at h
  split at h
  · obtain ⟨⟨v1, d1⟩, h1, h⟩ := bind_some_inv h
    simp only [Option.some.injEq, Prod.mk.injEq] at h
    obtain ⟨-, hd⟩ := h
    subst hd
    exact remove_unchecked_evolves h1
  · simp only [Option.some.injEq, Prod.mk.injEq] at h
    obtain ⟨-, hd⟩ := h
    subst hd
    exact evolves_rfl d

theorem remove_evolves {d d' : Deque T} {t : Token} {r : Option T}
    (h : remove d t = some (r, d')) : Evolves d d' := by
  unfold remove at h
  split at h
  next f b g v hget =>
    split at h
    · obtain ⟨⟨v1, d1⟩, h1, h⟩ := bind_some_inv h
      simp only [Option.some.injEq, Prod.mk.injEq] at h
      obtain ⟨-, hd⟩ := h
      subst hd
      exact remove_unchecked_evolves h1
    · simp only [Option.some.injEq, Prod.mk.injEq] at h
      obtain ⟨-, hd⟩ := h
      subst hd
      exact evolves_rfl d
  next =>
    simp only [Option.some.injEq, Prod.mk.injEq] at h
    obtain ⟨-, hd⟩ := h
    subst hd
    exact evolves_rfl d

theorem push_front_evolves {d d' : Deque T} {t : Token} {x : T}
    (h : push_front d x = some (t, d')) : Evolves d d' := by
  unfold push_front at h
  obtain ⟨⟨ix, g, d1⟩, h1, h⟩ := bind_some_inv h
  obtain ⟨d2, h2, h⟩ := bind_some_inv h
  simp only [Option.some.injEq, Prod.mk.injEq] at h
  obtain ⟨-, hd⟩ := h
  have e1 : Evolves d d1 := (allocate_spec h1).2.2.2
  have e2 : Evolves d1 d2 := evolves_if_gen h2
    (fun hh => (setFrontU_evolves hh).1)
    (fun hh => evolves_some_rec hh rfl rfl)
  have e3 : Evolves d2 d' := by
    refine evolves_congr (evolves_rfl d2) ?_ ?_ <;>
      (rw [← hd]; split <;> rfl)
  exact evolves_trans e1 (evolves_trans e2 e3)

theorem push_back_evolves {d d' : Deque T} {t : Token} {x : T}
    (h : push_back d x = some (t, d')) : Evolves d d' := by
  unfold push_back at h
  obtain ⟨⟨ix, g, d1⟩, h1, h⟩ := bind_some_inv h
  obtain ⟨d2, h2, h⟩ := bind_some_inv h
  simp only [Option.some.injEq, Prod.mk.injEq] at h
  obtain ⟨-, hd⟩ := h
  have e1 : Evolves d d1 := (allocate_spec h1).2.2.2
  have e2 : Evolves d1 d2 := evolves_if_gen h2
    (fun hh => (setBackU_evolves hh).1)
    (fun hh => evolves_some_rec hh rfl rfl)
  have e3 : Evolves d2 d' := by
    refine evolves_congr (evolves_rfl d2) ?_ ?_ <;>
      (rw [← hd]; split <;> rfl)
  exact evolves_trans e1 (evolves_trans e2 e3)

theorem move_to_front_evolves {d d' : Deque T} {t : Token} {r : Option Unit}
    (h : move_to_front d t = some (r, d')) : Evolves d d' := by
  unfold move_to_front at h
  split at h
  next f b g v hget =>
    split at h
    · split at h
      · simp only [Option.some.injEq, Prod.mk.injEq] at h
        obtain ⟨-, hd⟩ := h
        subst hd
        exact evolves_rfl d
      · obtain ⟨d1, h1, h⟩ := bind_some_inv h
        obtain ⟨d2, h2, h⟩ := bind_some_inv h
        obtain ⟨d3, h3, h⟩ := bind_some_inv h
        obtain ⟨d4, h4, h⟩ := bind_some_inv h
        obtain ⟨d5, h5, h⟩ := bind_some_inv h
        simp only [Option.some.injEq, Prod.mk.injEq] at h
        obtain ⟨-, hd⟩ := h
        subst hd
        have e1 : Evolves d d1 := (setFrontU_evolves h1).1
        have e2 : Evolves d1 d2 := (setBackU_evolves h2).1
        have e3 : Evolves d2 d3 := (setBackU_evolves h3).1
        have e4 : Evolves d3 d4 := evolves_if_gen h4
          (fun hh => (setFrontU_evolves hh).1)
          (fun hh => evolves_some_rec hh rfl rfl)
        have e5 : Evolves d4 d5 := (setFrontU_evolves h5).1
        have e6 : Evolves d5 { d5 with front := t.ix } :=
          evolves_congr (evolves_rfl d5) rfl rfl
        exact evolves_trans e1 (evolves_trans e2 (evolves_trans e3
          (evolves_trans e4 (evolves_trans e5 e6))))
    · simp only [Option.some.injEq, Prod.mk.injEq] at h
      obtain ⟨-, hd⟩ := h
      subst hd
      exact evolves_rfl d
  next =>
    simp only [Option.some.injEq, Prod.mk.injEq] at h
    obtain ⟨-, hd⟩ := h
    subst hd
    exact evolves_rfl d

theorem move_to_back_evolves {d d' : Deque T} {t : Token} {r : Option Unit}
    (h : move_to_back d t = some (r, d')) : Evolves d d' := by
  unfold move_to_back at h
  split at h
  next f b g v hget =>
    split at h
    · split at h
      · simp only [Option.some.injEq, Prod.mk.injEq] at h
        obtain ⟨-, hd⟩ := h
        subst hd
        exact evolves_rfl d
      · obtain ⟨d1, h1, h⟩ := bind_some_inv h
        obtain ⟨d2, h2, h⟩ := bind_some_inv h
        obtain ⟨d3, h3, h⟩ := bind_some_inv h
        obtain ⟨d4, h4, h⟩ := bind_some_inv h
        obtain ⟨d5, h5, h⟩ := bind_some_inv h
        simp only [Option.some.injEq, Prod.mk.injEq] at h
        obtain ⟨-, hd⟩ := h
        subst hd
        have e1 : Evolves d d1 := (setFrontU_evolves h1).1
        have e2 : Evolves d1 d2 := (setBackU_evolves h2).1
        have e3 : Evolves d2 d3 := evolves_if_gen h3
          (fun hh => (setBackU_evolves hh).1)
          (fun hh => evolves_some_rec hh rfl rfl)
        have e4 : Evolves d3 d4 := (setFrontU_evolves h4).1
        have e5 : Evolves d4 d5 := (setBackU_evolves h5).1
        have e6 : Evolves d5 { d5 with back := t.ix } :=
          evolves_congr (evolves_rfl d5) rfl rfl
        exact evolves_trans e1 (evolves_trans e2 (evolves_trans e3
          (evolves_trans e4 (evolves_trans e5 e6))))
    · simp only [Option.some.injEq, Prod.mk.injEq] at h
      obtain ⟨-, hd⟩ := h
      subst hd
      exact evolves_rfl d
  next =>
    simp only [Option.some.injEq, Prod.mk.injEq] at h
    obtain ⟨-, hd⟩ := h
    subst hd
    exact evolves_rfl d

theorem swap_evolves {d d' : Deque T} {ti tj : Token} {r : Option Unit}
    (h : swap d ti tj = some (r, d')) : Evolves d d' := by
  unfold swap at h
  split at h
  next i_front i_back j_front j_back =>
    obtain ⟨d1, h1, h⟩ := bind_some_inv h
    obtain ⟨d2, h2, h⟩ := bind_some_inv h
    obtain ⟨d3, h3, h⟩ := bind_some_inv h
    obtain ⟨d4, h4, h⟩ := bind_some_inv h
    obtain ⟨d5, h5, h⟩ := bind_some_inv h
    obtain ⟨d6, h6, h⟩ := bind_some_inv h
    obtain ⟨d7, h7, h⟩ := bind_some_inv h
    obtain ⟨d8, h8, h⟩ := bind_some_inv h
    simp only [Option.some.injEq, Prod.mk.injEq] at h
    obtain ⟨-, hd⟩ := h
    subst hd
    have e1 : Evolves d d1 := (setFrontU_evolves h1).1
    have e2 : Evolves d1 d2 := (setBackU_evolves h2).1
    have e3 : Evolves d2 d3 := evolves_if_gen h3
      (fun hh => (setBackU_evolves hh).1)
      (fun hh => evolves_some_rec hh rfl rfl)
    have e4 : Evolves d3 d4 := evolves_if_gen h4
      (fun hh => (setFrontU_evolves hh).1)
      (fun hh => evolves_some_rec hh rfl rfl)
    have e5 : Evolves d4 d5 := (setFrontU_evolves h5).1
    have e6 : Evolves d5 d6 := (setBackU_evolves h6).1
    have e7 : Evolves d6 d7 := evolves_if_gen h7
      (fun hh => (setBackU_evolves hh).1)
      (fun hh => evolves_some_rec hh rfl rfl)
    have e8 : Evolves d7 d8 := evolves_if_gen h8
      (fun hh => (setFrontU_evolves hh).1)
      (fun hh => evolves_some_rec hh rfl rfl)
    exact evolves_trans e1 (evolves_trans e2 (evolves_trans e3
      (evolves_trans e4 (evolves_trans e5 (evolves_trans e6
        (evolves_trans e7 e8))))))
  next =>
    simp only [Option.some.injEq, Prod.mk.injEq] at h
    obtain ⟨-, hd⟩ := h
    subst hd
    exact evolves_rfl d

theorem map_snd_some {A B : Type} {p : Option (A × B)} {y : B}
    (h : Option.map (fun z => z.2) p = some y) : ∃ a, p = some (a, y) := by
  cases p with
  | none => exact absurd h (by simp)
  | some z =>
    obtain ⟨a, b⟩ := z
    simp only [Option.map_some', Option.some.injEq] at h
    exact ⟨a, by rw [h]⟩

theorem step_evolves {e : Op T} {d d' : Deque T}
    (h : step e d = some d') : Evolves d d' := by
  cases e with
  | pushF v =>
    obtain ⟨a, ha⟩ := map_snd_some h
    exact push_front_evolves ha
  | pushB v =>
    obtain ⟨a, ha⟩ := map_snd_some h
    exact push_back_evolves ha
  | popF =>
    obtain ⟨a, ha⟩ := map_snd_some h
    exact pop_front_evolves ha
  | popB =>
    obtain ⟨a, ha⟩ := map_snd_some h
    exact pop_back_evolves ha
  | rem t =>
    obtain ⟨a, ha⟩ := map_snd_some h
    exact remove_evolves ha
  | mtf t =>
    obtain ⟨a, ha⟩ := map_snd_some h
    exact move_to_front_evolves ha
  | mtb t =>
    obtain ⟨a, ha⟩ := map_snd_some h
    exact move_to_back_evolves ha
  | swp a b =>
    obtain ⟨x, hx⟩ := map_snd_some h
    exact swap_evolves hx

theorem runOps_evolves {l : List (Op T)} {d d' : Deque T}
    (h : runOps l d = some d') : Evolves d d' := by
  induction l generalizing d with
  | nil =>
    cases Option.some.inj h
    exact evolves_rfl _
  | cons e l ih =>
    unfold runOps at h
    split at h
    next d1 hstep => exact evolves_trans (step_evolves hstep) (ih h)
    next => exact Option.noConfusion h

theorem if_opt_elim {A : Type} {c : Prop} [Decidable c] {o1 o2 : Option A}
    {a : A} {P : Prop} (h : (if c then o1 else o2) = some a)
    (h1 : o1 = some a → P) (h2 : o2 = some a → P) : P := by
  split at h
  exacts [h1 h, h2 h]

theorem get_used {d : Deque T} {t : Token} {f b g : Nat} {v : T}
    (hs : d.slots.get? t.ix = some (.used f b g v)) :
    get d t = if g = t.generation then some v else none := by
  unfold get
  rw [hs]

theorem get_noneslot {d : Deque T} {t : Token}
    (hs : d.slots.get? t.ix = none) : get d t = none := by
  unfold get
  rw [hs]

theorem get_freeslot {d : Deque T} {t : Token} {nx : Nat}
    (hs : d.slots.get? t.ix = some (.free nx)) : get d t = none := by
  unfold get
  rw [hs]

theorem get_none_elim {d : Deque T} {t : Token} (h : get d t = none)
    {f b g : Nat} {v : T} (hs : d.slots.get? t.ix = some (.used f b g v)) :
    g ≠ t.generation := by
  rw [get_used hs] at h
  intro hgen
  rw [if_pos hgen] at h
  exact Option.noConfusion h

theorem get_some_elim {d : Deque T} {t : Token} {v : T}
    (h : get d t = some v) :
    ∃ f b, d.slots.get? t.ix = some (.used f b t.generation v) := by
  cases hs : d.slots.get? t.ix with
  | none => rw [get_noneslot hs] at h; exact Option.noConfusion h
  | some s =>
    cases s with
    | free nx => rw [get_freeslot hs] at h; exact Option.noConfusion h
    | used f b g w =>
      rw [get_used hs] at h
      by_cases hgen : g = t.generation
      · rw [if_pos hgen] at h
        injection h with hw
        exact ⟨f, b, by rw [← hgen, ← hw]⟩
      · rw [if_neg hgen] at h
        exact Option.noConfusion h

theorem get_none_evolves {d d' : Deque T} {t : Token} (hg : GenInv d)
    (hlt : t.generation < d.next_generation) (h0 : get d t = none)
    (he : Evolves d d') : get d' t = none := by
  cases hs : d'.slots.get? t.ix with
  | none => exact get_noneslot hs
  | some s =>
    cases s with
    | free nx => exact get_freeslot hs
    | used f b g v =>
      rw [get_used hs]
      rcases he.2 _ _ _ _ _ hs with ⟨f0, b0, h1⟩ | ⟨hge, -⟩
      · exact if_neg (get_none_elim h0 h1)
      · exact if_neg (by omega)

theorem get_some_evolves {d d' : Deque T} {t : Token} {v : T}
    (hg : GenInv d) (hv : get d t = some v) (he : Evolves d d') :
    get d' t = some v ∨ get d' t = none := by
  obtain ⟨f1, b1, hs1⟩ := get_some_elim hv
  have hbound : t.generation < d.next_generation :=
    hg _ (List.get?_mem hs1)
  cases hs : d'.slots.get? t.ix with
  | none => exact .inr (get_noneslot hs)
  | some s =>
    cases s with
    | free nx => exact .inr (get_freeslot hs)
    | used f b g w =>
      rw [get_used hs]
      by_cases hgen : g = t.generation
      · subst hgen
        rcases he.2 _ _ _ _ _ hs with ⟨f0, b0, h1⟩ | ⟨hge, -⟩
        · rw [hs1] at h1
          injection Option.some.inj h1 with e1 e2 e3 e4
          subst e4
          exact .inl (by rw [if_pos rfl])
        · omega
      · exact .inr (if_neg hgen)

theorem remove_of_get_none {d : Deque T} {t : Token} (h : get d t = none) :
    remove d t = some (none, d) := by
  unfold remove
  cases hs : d.slots.get? t.ix with
  | none => rfl
  | some s =>
    cases s with
    | free nx => rfl
    | used f b g v =>
      dsimp only
      rw [if_neg (get_none_elim h hs)]

theorem move_to_front_of_get_none {d : Deque T} {t : Token}
    (h : get d t = none) : move_to_front d t = some (none, d) := by
  unfold move_to_front
  cases hs : d.slots.get? t.ix with
  | none => rfl
  | some s =>
    cases s with
    | free nx => rfl
    | used f b g v =>
      dsimp only
      rw [if_neg (get_none_elim h hs)]

theorem move_to_back_of_get_none {d : Deque T} {t : Token}
    (h : get d t = none) : move_to_back d t = some (none, d) := by
  unfold move_to_back
  cases hs : d.slots.get? t.ix with
  | none => rfl
  | some s =>
    cases s with
    | free nx => rfl
    | used f b g v =>
      dsimp only
      rw [if_neg (get_none_elim h hs)]

theorem validateLinks_of_get_none {d : Deque T} {t : Token}
    (h : get d t = none) : validateLinks d t = none := by
  unfold validateLinks
  cases hs : d.slots.get? t.ix with
  | none => rfl
  | some s =>
    cases s with
    | free nx => rfl
    | used f b g v =>
      dsimp only
      rw [if_neg (get_none_elim h hs)]

theorem swap_left_of_get_none {d : Deque T} {t u : Token}
    (h : get d t = none) : swap d t u = some (none, d) := by
  unfold swap
  rw [validateLinks_of_get_none h]

theorem swap_right_of_get_none {d : Deque T} {t u : Token}
    (h : get d t = none) : swap d u t = some (none, d) := by
  unfold swap
  rw [validateLinks_of_get_none h]
  cases validateLinks d u with
  | none => rfl
  | some p => obtain ⟨a, b⟩ := p; rfl

theorem pop_front_of_empty {d : Deque T} (h : d.front = NONE) :
    pop_front d = some (none, d) := by
  unfold pop_front
  rw [if_neg (by simp [h])]

theorem pop_back_of_empty {d : Deque T} (h : d.back = NONE) :
    pop_back d = some (none, d) := by
  unfold pop_back
  rw [if_neg (by simp [h])]

theorem push_back_roundtrip {d d' : Deque T} {t : Token} {x : T}
    (h : push_back d x = some (t, d')) :
    get d' t = some x ∧ t.generation = d.next_generation ∧
    d'.next_generation = d.next_generation + 1 := by
  unfold push_back at h
  obtain ⟨⟨ix, g, d1⟩, h1, h⟩ := bind_some_inv h
  obtain ⟨d2, h2, h⟩ := bind_some_inv h
  simp only [Option.some.injEq, Prod.mk.injEq] at h
  obtain ⟨ht, hd⟩ := h
  obtain ⟨hg, hng, hslot, -⟩ := allocate_spec h1
  have h2' : ∃ f' b', d2.slots.get? ix = some (.used f' b' g x) := by
    refine if_opt_elim h2 (fun hh => setBackU_genData hh hslot) (fun hh => ?_)
    cases Option.some.inj hh
    exact ⟨d.back, NONE, hslot⟩
  obtain ⟨f', b', hslot2⟩ := h2'
  have hng2 : d2.next_generation = d1.next_generation := by
    refine if_opt_elim h2 (fun hh => (setBackU_evolves hh).2) (fun hh => ?_)
    cases Option.some.inj hh
    rfl
  subst ht
  subst hd
  refine ⟨?_, hg, ?_⟩
  · have hsF : (if ({ d2 with back := ix } : Deque T).front = NONE then
        { d2 with back := ix, front := ix } else
        { d2 with back := ix }).slots.get? ix = some (.used f' b' g x) := by
      split <;> exact hslot2
    rw [get_used hsF]
    simp
  · have hF : (if ({ d2 with back := ix } : Deque T).front = NONE then
        { d2 with back := ix, front := ix } else
        { d2 with back := ix }).next_generation = d2.next_generation := by
      split <;> rfl
    rw [hF, hng2, hng]

theorem push_front_roundtrip {d d' : Deque T} {t : Token} {x : T}
    (h : push_front d x = some (t, d')) :
    get d' t = some x ∧ t.generation = d.next_generation ∧
    d'.next_generation = d.next_generation + 1 := by
  unfold push_front at h
  obtain ⟨⟨ix, g, d1⟩, h1, h⟩ := bind_some_inv h
  obtain ⟨d2, h2, h⟩ := bind_some_inv h
  simp only [Option.some.injEq, Prod.mk.injEq] at h
  obtain ⟨ht, hd⟩ := h
  obtain ⟨hg, hng, hslot, -⟩ := allocate_spec h1
  have h2' : ∃ f' b', d2.slots.get? ix = some (.used f' b' g x) := by
    refine if_opt_elim h2 (fun hh => setFrontU_genData hh hslot) (fun hh => ?_)
    cases Option.some.inj hh
    exact ⟨NONE, d.front, hslot⟩
  obtain ⟨f', b', hslot2⟩ := h2'
  have hng2 : d2.next_generation = d1.next_generation := by
    refine if_opt_elim h2 (fun hh => (setFrontU_evolves hh).2) (fun hh => ?_)
    cases Option.some.inj hh
    rfl
  subst ht
  subst hd
  refine ⟨?_, hg, ?_⟩
  · have hsF : (if ({ d2 with front := ix } : Deque T).back = NONE then
        { d2 with front := ix, back := ix } else
        { d2 with front := ix }).slots.get? ix = some (.used f' b' g x) := by
      split <;> exact hslot2
    rw [get_used hsF]
    simp
  · have hF : (if ({ d2 with front := ix } : Deque T).back = NONE then
        { d2 with front := ix, back := ix } else
        { d2 with front := ix }).next_generation = d2.next_generation := by
      split <;> rfl
    rw [hF, hng2, hng]

theorem with_capacity_slots_length (c : Nat) :
    ((with_capacity c : Deque T)).slots.length = c := by
  have key : ∀ (l : List Nat) (acc : List (Slot T) × Nat),
      ((l.foldl (fun acc i => (acc.1 ++ [Slot.free acc.2], i)) acc).1).length
        = acc.1.length + l.length := by
    intro l
    induction l with
    | nil => intro acc; simp
    | cons a l ih =>
      intro acc
      rw [List.foldl_cons, ih]
      simp only [List.length_append, List.length_singleton, List.length_cons,
        List.length_nil]
      omega
  show ((((List.range c).foldl
      (fun (acc : List (Slot T) × Nat) i => (acc.1 ++ [Slot.free acc.2], i))
      ([], NONE)).1)).length = c
  rw [key]
  simp

/-- Claim C1: the spec scenario push_back(1), push_back(2) (token t),
push_back(3), move_to_front(t) does give order [2,1,3], and swap of the
tokens of 1 and 3 does succeed with get on the token of 1 still
returning 1 — but the resulting order is NOT the claimed [2,3,1]: the
two swapped slots are direct neighbours and the link writes collide,
leaving the slot of 3 with a self-referential back link, so forward
traversal yields 2, 3, 3, ... instead of [2,3,1]. -/
theorem C1_swap_neighbors_bug :
    (do
      let (t1, t2, t3, d) ← dq123
      let (r1, d1) ← move_to_front d t2
      let (r2, d2) ← swap d1 t1 t3
      some (r1, iter_front d1 3, r2, iter_front d2 3, get d2 t1))
    = some (some (), [2, 1, 3], some (), [2, 3, 3], some 1) ∧
    ([2, 3, 3] : List Nat) ≠ [2, 3, 1] := by
  decide

/-- Claim C2: fully draining drain_front on [1,2,3] does yield 1,2,3 in
order and leaves len_freelist()==3 and len()==0, but the resulting deque
is NOT a well-formed empty deque: DrainFront::next never updates the
deque's front/back pointers, so they still address the freed slots 0 and
2 (violating the section-3 invariant that chain_front == NONE iff the
live count is 0), and the next pop_front panics (modelled: none) instead
of acting on an empty deque. -/
theorem C2_drain_front_stale_chain_bug :
    (do
      let (_, _, _, d) ← dq123
      let (vs, d1) ← drain_front d 10
      some (vs, len d1, len_freelist d1, d1.front, d1.back, pop_front d1))
    = some ([1, 2, 3], 0, 3, 0, 2, none) ∧
    (0 : Nat) ≠ NONE ∧ (2 : Nat) ≠ NONE :=
  ⟨by rfl, by decide, by decide⟩

/-- Claim C3: on the deque [1,2] with the cursor focused on the back
slot (index 1), CursorMut::remove_front removes the front neighbour and
returns its payload 1, but the deque's front pointer is left at the
freed slot 0 instead of being repointed at the focus (index 1): the
section-3 invariants are broken (chain_front addresses a Free slot) and
the next pop_front panics (modelled: none). -/
theorem C3_cursor_remove_front_stale_front_bug :
    (do
      let (_, _, d) ← dq12
      let (r, d1) ← cursor_remove_front d 1
      some (r, d1.front, d1.slots.get? 0, pop_front d1))
    = some (some 1, 0, some (Slot.free NONE), none) ∧ (0 : Nat) ≠ 1 :=
  ⟨by rfl, by decide⟩

/-- Claim C4: the derive(Default) deque is not equivalent to
Deque::new(): every usize field defaults to 0 rather than the usize::MAX
sentinel, so front/back/free_list all claim position 0 of an empty
vector; pop_front and pop_back on it panic with an out-of-bounds index
(modelled: none) instead of returning the absent value, and push_front
panics as well, while Deque::new() behaves correctly. -/
theorem C4_default_deque_bug :
    pop_front (defaultDeque : Deque Nat) = none ∧
    pop_back (defaultDeque : Deque Nat) = none ∧
    push_front (defaultDeque : Deque Nat) 5 = none ∧
    pop_front (new : Deque Nat) = some (none, new) ∧
    pop_back (new : Deque Nat) = some (none, new) ∧
    (defaultDeque : Deque Nat) ≠ new := by
  decide

theorem preservesUD_of_eq_slots {d d' : Deque T} (hs : d'.slots = d.slots) :
    PreservesUD d d' := by
  intro i f b g v hi
  rw [hs]
  exact ⟨f, b, hi⟩

theorem get_of_preservesUD {d d' : Deque T} {t : Token} {v : T}
    (hv : get d t = some v) (hp : PreservesUD d d') : get d' t = some v := by
  obtain ⟨f, b, hs⟩ := get_some_elim hv
  obtain ⟨f', b', hs'⟩ := hp _ _ _ _ _ hs
  rw [get_used hs']
  simp

theorem allocate_preservesUD {d d1 : Deque T} {fr bk ix g : Nat} {x : T}
    (h : allocate d fr bk x = some (ix, g, d1)) : PreservesUD d d1 := by
  intro i f b g0 v0 hi
  unfold allocate at h
  split at h
  next => exact absurd h (by simp)
  next hng =>
    dsimp only at h
    split at h
    next hfl =>
      simp only [Option.some.injEq, Prod.mk.injEq] at h
      obtain ⟨hix, hg, hd⟩ := h
      subst hd
      refine ⟨f, b, ?_⟩
      simp only [vecPush]
      rw [List.get?_append (by
        rcases List.get?_eq_some.1 hi with ⟨hlt, -⟩; exact hlt)]
      exact hi
    next hfl =>
      split at h
      next nx hget =>
        simp only [Option.some.injEq, Prod.mk.injEq] at h
        obtain ⟨hix, hg, hd⟩ := h
        subst hd
        refine ⟨f, b, ?_⟩
        rw [List.get?_set_ne _ _ (by
          intro heq
          rw [heq, hi] at hget
          exact Slot.noConfusion (Option.some.inj hget))]
        exact hi
      next => exact absurd h (by simp)

theorem push_front_preservesUD {d d' : Deque T} {t : Token} {x : T}
    (h : push_front d x = some (t, d')) : PreservesUD d d' := by
  unfold push_front at h
  obtain ⟨⟨ix, g, d1⟩, h1, h⟩ := bind_some_inv h
  obtain ⟨d2, h2, h⟩ := bind_some_inv h
  simp only [Option.some.injEq, Prod.mk.injEq] at h
  obtain ⟨-, hd⟩ := h
  intro i f b g0 v0 hi
  obtain ⟨f1, b1, hi1⟩ := allocate_preservesUD h1 _ _ _ _ _ hi
  have hi2 : ∃ fx bx, d2.slots.get? i = some (.used fx bx g0 v0) := by
    refine if_opt_elim h2 (fun hh => setFrontU_genData hh hi1) (fun hh => ?_)
    cases Option.some.inj hh
    exact ⟨f1, b1, hi1⟩
  obtain ⟨f2, b2, hi2⟩ := hi2
  refine ⟨f2, b2, ?_⟩
  rw [← hd]
  split <;> exact hi2

theorem push_back_preservesUD {d d' : Deque T} {t : Token} {x : T}
    (h : push_back d x = some (t, d')) : PreservesUD d d' := by
  unfold push_back at h
  obtain ⟨⟨ix, g, d1⟩, h1, h⟩ := bind_some_inv h
  obtain ⟨d2, h2, h⟩ := bind_some_inv h
  simp only [Option.some.injEq, Prod.mk.injEq] at h
  obtain ⟨-, hd⟩ := h
  intro i f b g0 v0 hi
  obtain ⟨f1, b1, hi1⟩ := allocate_preservesUD h1 _ _ _ _ _ hi
  have hi2 : ∃ fx bx, d2.slots.get? i = some (.used fx bx g0 v0) := by
    refine if_opt_elim h2 (fun hh => setBackU_genData hh hi1) (fun hh => ?_)
    cases Option.some.inj hh
    exact ⟨f1, b1, hi1⟩
  obtain ⟨f2, b2, hi2⟩ := hi2
  refine ⟨f2, b2, ?_⟩
  rw [← hd]
  split <;> exact hi2

theorem move_to_front_preservesUD {d d' : Deque T} {u : Token} {r : Option Unit}
    (h : move_to_front d u = some (r, d')) : PreservesUD d d' := by
  unfold move_to_front at h
  split at h
  next fu bu gu vu hget =>
    split at h
    next hgen =>
      split at h
      next hfr =>
        simp only [Option.some.injEq, Prod.mk.injEq] at h
        obtain ⟨-, hd⟩ := h
        subst hd
        exact preservesUD_of_eq_slots rfl
      next hfr =>
        obtain ⟨d1, h1, h⟩ := bind_some_inv h
        obtain ⟨d2, h2, h⟩ := bind_some_inv h
        obtain ⟨d3, h3, h⟩ := bind_some_inv h
        obtain ⟨d4, h4, h⟩ := bind_some_inv h
        obtain ⟨d5, h5, h⟩ := bind_some_inv h
        simp only [Option.some.injEq, Prod.mk.injEq] at h
        obtain ⟨-, hd⟩ := h
        subst hd
        intro i f b g0 v0 hi
        obtain ⟨f1, b1, hi1⟩ := setFrontU_genData h1 hi
        obtain ⟨f2, b2, hi2⟩ := setBackU_genData h2 hi1
        obtain ⟨f3, b3, hi3⟩ := setBackU_genData h3 hi2
        have hi4 : ∃ fx bx, d4.slots.get? i = some (.used fx bx g0 v0) := by
          refine if_opt_elim h4 (fun hh => setFrontU_genData hh hi3)
            (fun hh => ?_)
          cases Option.some.inj hh
          exact ⟨f3, b3, hi3⟩
        obtain ⟨f4, b4, hi4⟩ := hi4
        obtain ⟨f5, b5, hi5⟩ := setFrontU_genData h5 hi4
        exact ⟨f5, b5, hi5⟩
    next hgen =>
      simp only [Option.some.injEq, Prod.mk.injEq] at h
      obtain ⟨-, hd⟩ := h
      subst hd
      exact preservesUD_of_eq_slots rfl
  next =>
    simp only [Option.some.injEq, Prod.mk.injEq] at h
    obtain ⟨-, hd⟩ := h
    subst hd
    exact preservesUD_of_eq_slots rfl

theorem move_to_back_preservesUD {d d' : Deque T} {u : Token} {r : Option Unit}
    (h : move_to_back d u = some (r, d')) : PreservesUD d d' := by
  unfold move_to_back at h
  split at h
  next fu bu gu vu hget =>
    split at h
    next hgen =>
      split at h
      next hbk =>
        simp only [Option.some.injEq, Prod.mk.injEq] at h
        obtain ⟨-, hd⟩ := h
        subst hd
        exact preservesUD_of_eq_slots rfl
      next hbk =>
        obtain ⟨d1, h1, h⟩ := bind_some_inv h
        obtain ⟨d2, h2, h⟩ := bind_some_inv h
        obtain ⟨d3, h3, h⟩ := bind_some_inv h
        obtain ⟨d4, h4, h⟩ := bind_some_inv h
        obtain ⟨d5, h5, h⟩ := bind_some_inv h
        simp only [Option.some.injEq, Prod.mk.injEq] at h
        obtain ⟨-, hd⟩ := h
        subst hd
        intro i f b g0 v0 hi
        obtain ⟨f1, b1, hi1⟩ := setFrontU_genData h1 hi
        obtain ⟨f2, b2, hi2⟩ := setBackU_genData h2 hi1
        have hi3 : ∃ fx bx, d3.slots.get? i = some (.used fx bx g0 v0) := by
          refine if_opt_elim h3 (fun hh => setBackU_genData hh hi2)
            (fun hh => ?_)
          cases Option.some.inj hh
          exact ⟨f2, b2, hi2⟩
        obtain ⟨f3, b3, hi3⟩ := hi3
        obtain ⟨f4, b4, hi4⟩ := setFrontU_genData h4 hi3
        obtain ⟨f5, b5, hi5⟩ := setBackU_genData h5 hi4
        exact ⟨f5, b5, hi5⟩
    next hgen =>
      simp only [Option.some.injEq, Prod.mk.injEq] at h
      obtain ⟨-, hd⟩ := h
      subst hd
      exact preservesUD_of_eq_slots rfl
  next =>
    simp only [Option.some.injEq, Prod.mk.injEq] at h
    obtain ⟨-, hd⟩ := h
    subst hd
    exact preservesUD_of_eq_slots rfl

theorem swap_preservesUD {d d' : Deque T} {ti tj : Token} {r : Option Unit}
    (h : swap d ti tj = some (r, d')) : PreservesUD d d' := by
  unfold swap at h
  split at h
  next i_front i_back j_front j_back =>
    obtain ⟨d1, h1, h⟩ := bind_some_inv h
    obtain ⟨d2, h2, h⟩ := bind_some_inv h
    obtain ⟨d3, h3, h⟩ := bind_some_inv h
    obtain ⟨d4, h4, h⟩ := bind_some_inv h
    obtain ⟨d5, h5, h⟩ := bind_some_inv h
    obtain ⟨d6, h6, h⟩ := bind_some_inv h
    obtain ⟨d7, h7, h⟩ := bind_some_inv h
    obtain ⟨d8, h8, h⟩ := bind_some_inv h
    simp only [Option.some.injEq, Prod.mk.injEq] at h
    obtain ⟨-, hd⟩ := h
    subst hd
    intro i f b g0 v0 hi
    obtain ⟨f1, b1, hi1⟩ := setFrontU_genData h1 hi
    obtain ⟨f2, b2, hi2⟩ := setBackU_genData h2 hi1
    have hi3 : ∃ fx bx, d3.slots.get? i = some (.used fx bx g0 v0) := by
      refine if_opt_elim h3 (fun hh => setBackU_genData hh hi2) (fun hh => ?_)
      cases Option.some.inj hh
      exact ⟨f2, b2, hi2⟩
    obtain ⟨f3, b3, hi3⟩ := hi3
    have hi4 : ∃ fx bx, d4.slots.get? i = some (.used fx bx g0 v0) := by
      refine if_opt_elim h4 (fun hh => setFrontU_genData hh hi3) (fun hh => ?_)
      cases Option.some.inj hh
      exact ⟨f3, b3, hi3⟩
    obtain ⟨f4, b4, hi4⟩ := hi4
    obtain ⟨f5, b5, hi5⟩ := setFrontU_genData h5 hi4
    obtain ⟨f6, b6, hi6⟩ := setBackU_genData h6 hi5
    have hi7 : ∃ fx bx, d7.slots.get? i = some (.used fx bx g0 v0) := by
      refine if_opt_elim h7 (fun hh => setBackU_genData hh hi6) (fun hh => ?_)
      cases Option.some.inj hh
      exact ⟨f6, b6, hi6⟩
    obtain ⟨f7, b7, hi7⟩ := hi7
    have hi8 : ∃ fx bx, d8.slots.get? i = some (.used fx bx g0 v0) := by
      refine if_opt_elim h8 (fun hh => setFrontU_genData hh hi7) (fun hh => ?_)
      cases Option.some.inj hh
      exact ⟨f7, b7, hi7⟩
    exact hi8
  next =>
    simp only [Option.some.injEq, Prod.mk.injEq] at h
    obtain ⟨-, hd⟩ := h
    subst hd
    exact preservesUD_of_eq_slots rfl

theorem setFrontU_free_stable {d d' : Deque T} {j x i nx : Nat}
    (h : setFrontU d j x = some d')
    (hi : d.slots.get? i = some (.free nx)) :
    d'.slots.get? i = some (.free nx) := by
  obtain ⟨f0, b0, g0, v0, hs, rfl⟩ := setFrontU_eq h
  by_cases hj : j = i
  · subst hj
    rw [hs] at hi
    exact Slot.noConfusion (Option.some.inj hi)
  · rw [List.get?_set_ne _ _ hj]
    exact hi

theorem setBackU_free_stable {d d' : Deque T} {j x i nx : Nat}
    (h : setBackU d j x = some d')
    (hi : d.slots.get? i = some (.free nx)) :
    d'.slots.get? i = some (.free nx) := by
  obtain ⟨f0, b0, g0, v0, hs, rfl⟩ := setBackU_eq h
  by_cases hj : j = i
  · subst hj
    rw [hs] at hi
    exact Slot.noConfusion (Option.some.inj hi)
  · rw [List.get?_set_ne _ _ hj]
    exact hi

theorem remove_unchecked_frees {d d' : Deque T} {j : Nat} {v : T}
    (h : remove_unchecked d j = some (v, d')) :
    ∃ nx, d'.slots.get? j = some (.free nx) := by
  unfold remove_unchecked at h
  obtain ⟨⟨⟨fj, vj, bj⟩, d1⟩, h1, h⟩ := bind_some_inv h
  obtain ⟨d2, h2, h⟩ := bind_some_inv h
  obtain ⟨d3, h3, h⟩ := bind_some_inv h
  simp only [Option.some.injEq, Prod.mk.injEq] at h
  obtain ⟨-, hd⟩ := h
  subst hd
  obtain ⟨f0, b0, g0, v0, hsj, hr, hd1⟩ := freeSlot_eq h1
  subst hd1
  have hlt : j < d.slots.length := by
    rcases List.get?_eq_some.1 hsj with ⟨hlt, -⟩; exact hlt
  have hi1 : (d.slots.set j (Slot.free d.free_list)).get? j
      = some (Slot.free d.free_list) := List.get?_set_eq_of_lt _ hlt
  have hi2 : d2.slots.get? j = some (Slot.free d.free_list) := by
    refine if_opt_elim h2 (fun hh => ?_) (fun hh => setBackU_free_stable hh hi1)
    cases Option.some.inj hh
    exact hi1
  have hi3 : d3.slots.get? j = some (Slot.free d.free_list) := by
    refine if_opt_elim h3 (fun hh => ?_) (fun hh => setFrontU_free_stable hh hi2)
    cases Option.some.inj hh
    exact hi2
  exact ⟨d.free_list, hi3⟩

theorem remove_unchecked_ne_genData {d d' : Deque T} {j i f b g : Nat}
    {v w : T} (h : remove_unchecked d j = some (v, d')) (hne : i ≠ j)
    (hi : d.slots.get? i = some (.used f b g w)) :
    ∃ f' b', d'.slots.get? i = some (.used f' b' g w) := by
  unfold remove_unchecked at h
  obtain ⟨⟨⟨fj, vj, bj⟩, d1⟩, h1, h⟩ := bind_some_inv h
  obtain ⟨d2, h2, h⟩ := bind_some_inv h
  obtain ⟨d3, h3, h⟩ := bind_some_inv h
  simp only [Option.some.injEq, Prod.mk.injEq] at h
  obtain ⟨-, hd⟩ := h
  subst hd
  obtain ⟨f0, b0, g0, v0, hsj, hr, hd1⟩ := freeSlot_eq h1
  subst hd1
  have hi1 : (d.slots.set j (Slot.free d.free_list)).get? i
      = some (Slot.used f b g w) := by
    rw [List.get?_set_ne _ _ (Ne.symm hne)]
    exact hi
  have hi2 : ∃ f2 b2, d2.slots.get? i = some (.used f2 b2 g w) := by
    refine if_opt_elim h2 (fun hh => ?_) (fun hh => setBackU_genData hh hi1)
    cases Option.some.inj hh
    exact ⟨f, b, hi1⟩
  obtain ⟨f2, b2, hi2⟩ := hi2
  have hi3 : ∃ f3 b3, d3.slots.get? i = some (.used f3 b3 g w) := by
    refine if_opt_elim h3 (fun hh => ?_) (fun hh => setFrontU_genData hh hi2)
    cases Option.some.inj hh
    exact ⟨f2, b2, hi2⟩
  exact hi3

theorem step_preserves_token {e : Op T} {d d' : Deque T} {t : Token} {v : T}
    (hv : get d t = some v) (h : step e d = some d')
    (hfree : ¬ freesTokenSlot e d t) : get d' t = some v := by
  cases e with
  | pushF x =>
    obtain ⟨a, ha⟩ := map_snd_some h
    exact get_of_preservesUD hv (push_front_preservesUD ha)
  | pushB x =>
    obtain ⟨a, ha⟩ := map_snd_some h
    exact get_of_preservesUD hv (push_back_preservesUD ha)
  | mtf u =>
    obtain ⟨a, ha⟩ := map_snd_some h
    exact get_of_preservesUD hv (move_to_front_preservesUD ha)
  | mtb u =>
    obtain ⟨a, ha⟩ := map_snd_some h
    exact get_of_preservesUD hv (move_to_back_preservesUD ha)
  | swp a b =>
    obtain ⟨x, hx⟩ := map_snd_some h
    exact get_of_preservesUD hv (swap_preservesUD hx)
  | popF =>
    obtain ⟨a, ha⟩ := map_snd_some h
    unfold pop_front at ha
    split at ha
    · obtain ⟨⟨v1, d1⟩, h1, ha⟩ := bind_some_inv ha
      simp only [Option.some.injEq, Prod.mk.injEq] at ha
      obtain ⟨-, hd⟩ := ha
      subst hd
      obtain ⟨f, b, hs⟩ := get_some_elim hv
      obtain ⟨f', b', hs'⟩ := remove_unchecked_ne_genData h1
        (fun heq => hfree heq.symm) hs
      rw [get_used hs']
      simp
    · simp only [Option.some.injEq, Prod.mk.injEq] at ha
      obtain ⟨-, hd⟩ := ha
      subst hd
      exact hv
  | popB =>
    obtain ⟨a, ha⟩ := map_snd_some h
    unfold pop_back at ha
    split at ha
    · obtain ⟨⟨v1, d1⟩, h1, ha⟩ := bind_some_inv ha
      simp only [Option.some.injEq, Prod.mk.injEq] at ha
      obtain ⟨-, hd⟩ := ha
      subst hd
      obtain ⟨f, b, hs⟩ := get_some_elim hv
      obtain ⟨f', b', hs'⟩ := remove_unchecked_ne_genData h1
        (fun heq => hfree heq.symm) hs
      rw [get_used hs']
      simp
    · simp only [Option.some.injEq, Prod.mk.injEq] at ha
      obtain ⟨-, hd⟩ := ha
      subst hd
      exact hv
  | rem u =>
    obtain ⟨a, ha⟩ := map_snd_some h
    unfold remove at ha
    split at ha
    next fu bu gu vu hgetu =>
      split at ha
      next hgu =>
        obtain ⟨⟨v1, d1⟩, h1, ha⟩ := bind_some_inv ha
        simp only [Option.some.injEq, Prod.mk.injEq] at ha
        obtain ⟨-, hd⟩ := ha
        subst hd
        have hu : get d u ≠ none := by
          rw [get_used hgetu, if_pos hgu]
          simp
        have hne : t.ix ≠ u.ix := fun heq => hfree ⟨heq.symm, hu⟩
        obtain ⟨f, b, hs⟩ := get_some_elim hv
        obtain ⟨f', b', hs'⟩ := remove_unchecked_ne_genData h1 hne hs
        rw [get_used hs']
        simp
      next hgu =>
        simp only [Option.some.injEq, Prod.mk.injEq] at ha
        obtain ⟨-, hd⟩ := ha
        subst hd
        exact hv
    next =>
      simp only [Option.some.injEq, Prod.mk.injEq] at ha
      obtain ⟨-, hd⟩ := ha
      subst hd
      exact hv

theorem step_frees_token {e : Op T} {d d' : Deque T} {t : Token} {v : T}
    (hv : get d t = some v) (hlen : d.slots.length ≤ NONE)
    (h : step e d = some d') (hfree : freesTokenSlot e d t) :
    get d' t = none := by
  cases e with
  | pushF x => exact False.elim hfree
  | pushB x => exact False.elim hfree
  | mtf u => exact False.elim hfree
  | mtb u => exact False.elim hfree
  | swp a b => exact False.elim hfree
  | popF =>
    obtain ⟨a, ha⟩ := map_snd_some h
    obtain ⟨f, b, hs⟩ := get_some_elim hv
    have hlt : t.ix < d.slots.length := by
      rcases List.get?_eq_some.1 hs with ⟨hlt, -⟩; exact hlt
    have hne : t.ix ≠ NONE := by omega
    unfold pop_front at ha
    split at ha
    next hc =>
      obtain ⟨⟨v1, d1⟩, h1, ha⟩ := bind_some_inv ha
      simp only [Option.some.injEq, Prod.mk.injEq] at ha
      obtain ⟨-, hd⟩ := ha
      subst hd
      rw [show d.front = t.ix from hfree] at h1
      obtain ⟨nx, hfr⟩ := remove_unchecked_frees h1
      exact get_freeslot hfr
    next hc =>
      have hfn : d.front = NONE := not_not.mp hc
      rw [show d.front = t.ix from hfree] at hfn
      exact absurd hfn hne
  | popB =>
    obtain ⟨a, ha⟩ := map_snd_some h
    obtain ⟨f, b, hs⟩ := get_some_elim hv
    have hlt : t.ix < d.slots.length := by
      rcases List.get?_eq_some.1 hs with ⟨hlt, -⟩; exact hlt
    have hne : t.ix ≠ NONE := by omega
    unfold pop_back at ha
    split at ha
    next hc =>
      obtain ⟨⟨v1, d1⟩, h1, ha⟩ := bind_some_inv ha
      simp only [Option.some.injEq, Prod.mk.injEq] at ha
      obtain ⟨-, hd⟩ := ha
      subst hd
      rw [show d.back = t.ix from hfree] at h1
      obtain ⟨nx, hfr⟩ := remove_unchecked_frees h1
      exact get_freeslot hfr
    next hc =>
      have hfn : d.back = NONE := not_not.mp hc
      rw [show d.back = t.ix from hfree] at hfn
      exact absurd hfn hne
  | rem u =>
    obtain ⟨hix, hu⟩ := hfree
    obtain ⟨a, ha⟩ := map_snd_some h
    unfold remove at ha
    split at ha
    next fu bu gu vu hgetu =>
      split at ha
      next hgu =>
        obtain ⟨⟨v1, d1⟩, h1, ha⟩ := bind_some_inv ha
        simp only [Option.some.injEq, Prod.mk.injEq] at ha
        obtain ⟨-, hd⟩ := ha
        subst hd
        rw [hix] at h1
        obtain ⟨nx, hfr⟩ := remove_unchecked_frees h1
        exact get_freeslot hfr
      next hgu =>
        exact absurd (by rw [get_used hgetu, if_neg hgu]) hu
    next hno =>
      cases hs2 : d.slots.get? u.ix with
      | none => exact absurd (get_noneslot hs2) hu
      | some s =>
        cases s with
        | free nx => exact absurd (get_freeslot hs2) hu
        | used f2 b2 g2 v2 => exact (hno _ _ _ _ hs2).elim

/-- Claim C5: tokens round-trip and stale tokens fail forever. For
every push the returned token immediately reads back the pushed value
and its generation is taken from the strictly increasing counter (which
the push increments); get keeps returning that same value across every
façade operation that does not free the token's slot — pushes, moves
and swaps can never invalidate or alter a live token's payload, and
pops/removes of other slots cannot either; the one way a live token can
change is the removal of its own element, which turns get to the absent
result; operations preserve the generation invariant; and once get
reports absent, every subsequent sequence of façade operations keeps
get and remove reporting absent — even when the slot index is
reallocated — because fresh slots always bear generations at or above
the old counter value. -/
theorem C5_token_generation_roundtrip_and_staleness :
    (∀ (d d' : Deque Nat) (t : Token) (x : Nat),
        push_back d x = some (t, d') →
        get d' t = some x ∧ t.generation = d.next_generation ∧
        d'.next_generation = d.next_generation + 1) ∧
    (∀ (d d' : Deque Nat) (t : Token) (x : Nat),
        push_front d x = some (t, d') →
        get d' t = some x ∧ t.generation = d.next_generation ∧
        d'.next_generation = d.next_generation + 1) ∧
    (∀ (d d' : Deque Nat) (t : Token) (v : Nat) (e : Op Nat),
        get d t = some v → step e d = some d' →
        ¬ freesTokenSlot e d t → get d' t = some v) ∧
    (∀ (d d' : Deque Nat) (t : Token) (v : Nat) (e : Op Nat),
        get d t = some v → d.slots.length ≤ NONE → step e d = some d' →
        freesTokenSlot e d t → get d' t = none) ∧
    (∀ (d d' : Deque Nat) (e : Op Nat),
        GenInv d → step e d = some d' → GenInv d') ∧
    (∀ (d d' : Deque Nat) (t : Token) (l : List (Op Nat)),
        GenInv d → t.generation < d.next_generation → get d t = none →
        runOps l d = some d' →
        get d' t = none ∧ remove d' t = some (none, d')) := by
  refine ⟨fun d d' t x h => push_back_roundtrip h,
    fun d d' t x h => push_front_roundtrip h,
    fun d d' t v e hv hs hfree => step_preserves_token hv hs hfree,
    fun d d' t v e hv hlen hs hfree => step_frees_token hv hlen hs hfree,
    fun d d' e hg hs => geninv_of_evolves hg (step_evolves hs),
    fun d d' t l hg hlt h0 hrun => ?_⟩
  have hnone := get_none_evolves hg hlt h0 (runOps_evolves hrun)
  exact ⟨hnone, remove_of_get_none hnone⟩

/-- Witness for C5: pushing 5 yields a token with generation 0 that
reads back 5; pushing 9 afterwards (a non-freeing operation) keeps get
at 5; popping the front (which frees exactly that slot) turns get to
absent; and after the pop plus a push of 7 (which reuses slot 0 with a
fresh generation), get and remove on the stale token still report
absent. -/
theorem C5_token_generation_roundtrip_and_staleness_witness :
    (get w5_d1 w5_t = some 5 ∧
     w5_t.generation = (new : Deque Nat).next_generation ∧
     w5_d1.next_generation = (new : Deque Nat).next_generation + 1) ∧
    get w5_d4 w5_t = some 5 ∧
    get w5_d2 w5_t = none ∧
    (get w5_d3 w5_t = none ∧ remove w5_d3 w5_t = some (none, w5_d3)) :=
  ⟨C5_token_generation_roundtrip_and_staleness.1 new w5_d1 w5_t 5 (by decide),
   C5_token_generation_roundtrip_and_staleness.2.2.1 w5_d1 w5_d4 w5_t 5
     (Op.pushB 9) (by decide) (by decide) (fun hf => hf),
   C5_token_generation_roundtrip_and_staleness.2.2.2.1 w5_d1 w5_d2 w5_t 5
     Op.popF (by decide) (by decide) (by decide)
     (show w5_d1.front = w5_t.ix by decide),
   C5_token_generation_roundtrip_and_staleness.2.2.2.2.2 w5_d2 w5_d3 w5_t
     [Op.pushB 7] (by decide) (by decide) (by decide) (by decide)⟩

/-- Claim C6: every operation addressing a non-existent position returns
the explicit absent result and leaves the deque completely unchanged:
remove/get_mut/move_to_front/move_to_back/swap against a token that
fails validation (out of range, freed slot, or stale generation — i.e.
get returns none), and pop_front/pop_back on an empty chain. -/
theorem C6_absent_operations_unchanged :
    (∀ (d : Deque Nat) (t u : Token), get d t = none →
        remove d t = some (none, d) ∧ get_mut d t = none ∧
        move_to_front d t = some (none, d) ∧
        move_to_back d t = some (none, d) ∧
        swap d t u = some (none, d) ∧ swap d u t = some (none, d)) ∧
    (∀ d : Deque Nat, d.front = NONE → pop_front d = some (none, d)) ∧
    (∀ d : Deque Nat, d.back = NONE → pop_back d = some (none, d)) :=
  ⟨fun d t u h => ⟨remove_of_get_none h, h, move_to_front_of_get_none h,
    move_to_back_of_get_none h, swap_left_of_get_none h,
    swap_right_of_get_none h⟩,
   fun d h => pop_front_of_empty h,
   fun d h => pop_back_of_empty h⟩

/-- Witness for C6: the stale token of the popped element 5 leaves the
one-slot deque untouched under every token operation, and the empty
deque pops absent. -/
theorem C6_absent_operations_unchanged_witness :
    (remove w5_d2 w5_t = some (none, w5_d2) ∧ get_mut w5_d2 w5_t = none ∧
     move_to_front w5_d2 w5_t = some (none, w5_d2) ∧
     move_to_back w5_d2 w5_t = some (none, w5_d2) ∧
     swap w5_d2 w5_t ⟨3, 7⟩ = some (none, w5_d2) ∧
     swap w5_d2 ⟨3, 7⟩ w5_t = some (none, w5_d2)) ∧
    pop_front (new : Deque Nat) = some (none, new) ∧
    pop_back (new : Deque Nat) = some (none, new) :=
  ⟨C6_absent_operations_unchanged.1 w5_d2 w5_t ⟨3, 7⟩ (by decide),
   C6_absent_operations_unchanged.2.1 new (by decide),
   C6_absent_operations_unchanged.2.2 new (by decide)⟩

/-- Claim C7: forward and backward traversal are NOT always reverses of
each other with length len(): after swap of the two (adjacent) elements
of [1,2], the chain is corrupted into self-loops — forward traversal
yields 2,2,2,... and backward traversal 1,1,1,..., neither terminating
after len() = 2 elements (the walk still stands on index 1 after 4
steps), and the reversal equation fails. -/
theorem C7_chain_integrity_bug :
    (do
      let (ta, tb, d) ← dq12
      let (r, d1) ← swap d ta tb
      some (r, len d1, iter_front d1 2, iter_back d1 2,
            iter_front d1 4, iterFrontIx d1 d1.front 4))
    = some (some (), 2, [2, 2], [1, 1], [2, 2, 2, 2], 1) ∧
    ([1, 1] : List Nat).reverse ≠ [2, 2] ∧ (1 : Nat) ≠ NONE :=
  ⟨by decide, by decide, by decide⟩

/-- Claim C8: swap(a, b) twice does NOT restore the original order for
every pair of valid tokens: on [1,2,3] with the adjacent tokens of 1 and
2, both swaps succeed, yet the forward traversal after the double swap
is [1,2,1] (with a corrupted cycle) instead of the original [1,2,3]. -/
theorem C8_swap_symmetry_bug :
    (do
      let (t1, t2, _t3, d) ← dq123
      let (r1, d1) ← swap d t1 t2
      let (r2, d2) ← swap d1 t1 t2
      some (r1, r2, iter_front d 3, iter_front d2 3, iter_back d2 3))
    = some (some (), some (), [1, 2, 3], [1, 2, 1], [3, 1, 2]) ∧
    ([1, 2, 1] : List Nat) ≠ [1, 2, 3] := by
  decide

/-- Claim C9: move_to_front on a token whose element is already the
chain front succeeds and changes nothing, and a successful move_to_front
is idempotent on the full deque state — the second call validates the
same token (links may have changed but generation and payload have not)
and short-circuits on front == ix. Symmetrically for move_to_back. -/
theorem C9_move_idempotent :
    (∀ (d : Deque Nat) (t : Token) (v : Nat),
        get d t = some v → d.front = t.ix →
        move_to_front d t = some (some (), d)) ∧
    (∀ (d d' : Deque Nat) (t : Token),
        move_to_front d t = some (some (), d') →
        move_to_front d' t = some (some (), d')) ∧
    (∀ (d : Deque Nat) (t : Token) (v : Nat),
        get d t = some v → d.back = t.ix →
        move_to_back d t = some (some (), d)) ∧
    (∀ (d d' : Deque Nat) (t : Token),
        move_to_back d t = some (some (), d') →
        move_to_back d' t = some (some (), d')) := by
  refine ⟨?_, ?_, ?_, ?_⟩
  · intro d t v hv hfr
    obtain ⟨f, b, hs⟩ := get_some_elim hv
    unfold move_to_front
    rw [hs]
    dsimp only
    rw [if_pos rfl, if_pos hfr]
  · intro d d' t h
    unfold move_to_front at h
    split at h
    next f b g v hget =>
      split at h
      next hgen =>
        split at h
        next hfr =>
          simp only [Option.some.injEq, Prod.mk.injEq] at h
          obtain ⟨-, hd⟩ := h
          subst hd
          unfold move_to_front
          rw [hget]
          dsimp only
          rw [if_pos hgen, if_pos hfr]
        next hfr =>
          obtain ⟨d1, h1, h⟩ := bind_some_inv h
          obtain ⟨d2, h2, h⟩ := bind_some_inv h
          obtain ⟨d3, h3, h⟩ := bind_some_inv h
          obtain ⟨d4, h4, h⟩ := bind_some_inv h
          obtain ⟨d5, h5, h⟩ := bind_some_inv h
          simp only [Option.some.injEq, Prod.mk.injEq] at h
          obtain ⟨-, hd⟩ := h
          subst hd
          obtain ⟨f1, b1, hg1⟩ := setFrontU_genData h1 hget
          obtain ⟨f2, b2, hg2⟩ := setBackU_genData h2 hg1
          obtain ⟨f3, b3, hg3⟩ := setBackU_genData h3 hg2
          have hg4 : ∃ f4 b4, d4.slots.get? t.ix = some (.used f4 b4 g v) := by
            refine if_opt_elim h4 (fun hh => setFrontU_genData hh hg3)
              (fun hh => ?_)
            cases Option.some.inj hh
            exact ⟨f3, b3, hg3⟩
          obtain ⟨f4, b4, hg4⟩ := hg4
          obtain ⟨f5, b5, hg5⟩ := setFrontU_genData h5 hg4
          unfold move_to_front
          have hsF : ({ d5 with front := t.ix } : Deque Nat).slots.get? t.ix
              = some (.used f5 b5 g v) := hg5
          rw [hsF]
          dsimp only
          rw [if_pos hgen, if_pos rfl]
      next hgen => exact absurd h (by simp)
    next => exact absurd h (by simp)
  · intro d t v hv hbk
    obtain ⟨f, b, hs⟩ := get_some_elim hv
    unfold move_to_back
    rw [hs]
    dsimp only
    rw [if_pos rfl, if_pos hbk]
  · intro d d' t h
    unfold move_to_back at h
    split at h
    next f b g v hget =>
      split at h
      next hgen =>
        split at h
        next hbk =>
          simp only [Option.some.injEq, Prod.mk.injEq] at h
          obtain ⟨-, hd⟩ := h
          subst hd
          unfold move_to_back
          rw [hget]
          dsimp only
          rw [if_pos hgen, if_pos hbk]
        next hbk =>
          obtain ⟨d1, h1, h⟩ := bind_some_inv h
          obtain ⟨d2, h2, h⟩ := bind_some_inv h
          obtain ⟨d3, h3, h⟩ := bind_some_inv h
          obtain ⟨d4, h4, h⟩ := bind_some_inv h
          obtain ⟨d5, h5, h⟩ := bind_some_inv h
          simp only [Option.some.injEq, Prod.mk.injEq] at h
          obtain ⟨-, hd⟩ := h
          subst hd
          obtain ⟨f1, b1, hg1⟩ := setFrontU_genData h1 hget
          obtain ⟨f2, b2, hg2⟩ := setBackU_genData h2 hg1
          have hg3 : ∃ f3 b3, d3.slots.get? t.ix = some (.used f3 b3 g v) := by
            refine if_opt_elim h3 (fun hh => setBackU_genData hh hg2)
              (fun hh => ?_)
            cases Option.some.inj hh
            exact ⟨f2, b2, hg2⟩
          obtain ⟨f3, b3, hg3⟩ := hg3
          obtain ⟨f4, b4, hg4⟩ := setFrontU_genData h4 hg3
          obtain ⟨f5, b5, hg5⟩ := setBackU_genData h5 hg4
          unfold move_to_back
          have hsF : ({ d5 with back := t.ix } : Deque Nat).slots.get? t.ix
              = some (.used f5 b5 g v) := hg5
          rw [hsF]
          dsimp only
          rw [if_pos hgen, if_pos rfl]
      next hgen => exact absurd h (by simp)
    next => exact absurd h (by simp)

/-- Witness for C9: in [1,2,3], moving the front element 1 to the front
is a successful no-op, and moving the interior element 2 to the front
(respectively to the back) twice gives the state reached after one
move. -/
theorem C9_move_idempotent_witness :
    move_to_front w9_d w9_t1 = some (some (), w9_d) ∧
    move_to_front w9_mtf w9_t2 = some (some (), w9_mtf) ∧
    move_to_back w9_d w9_t3 = some (some (), w9_d) ∧
    move_to_back w9_mtb w9_t2 = some (some (), w9_mtb) :=
  ⟨C9_move_idempotent.1 w9_d w9_t1 1 (by decide) (by decide),
   C9_move_idempotent.2.1 w9_d w9_mtf w9_t2 (by decide),
   C9_move_idempotent.2.2.1 w9_d w9_t3 3 (by decide) (by decide),
   C9_move_idempotent.2.2.2 w9_d w9_mtb w9_t2 (by decide)⟩

/-- Claim C10, counterexample to "reserve(n) grows the raw backing
storage's capacity by at least n additional slots": on an empty deque
already reserved to capacity 10, reserve(5) is a no-op (the spare
capacity suffices), so the capacity does not grow by 5. -/
theorem C10_reserve_counterexample :
    reserve c10_r1 5 = c10_r1 ∧ capacity c10_r1 = 10 ∧
    ¬(capacity c10_r1 + 5 ≤ capacity (reserve c10_r1 5)) := by
  decide

/-- Claim C10 as amended: with_capacity(n) pre-links exactly n free
slots (len_freelist()==n, len()==0, and the backing vector holds n
slots); reserve(n) ensures capacity for at least n elements beyond the
current number of slots while leaving the slots, len_freelist and len
unchanged (it may leave capacity unchanged when slack already
suffices); and with_capacity(3) followed by 4 pushes gives
len_freelist()==0, len()==4 and capacity strictly greater than 3. -/
theorem C10_capacity_amended :
    (∀ n : Nat, len_freelist (with_capacity n : Deque Nat) = n ∧
        len (with_capacity n : Deque Nat) = 0 ∧
        (with_capacity n : Deque Nat).slots.length = n) ∧
    (∀ (d : Deque Nat) (n : Nat), d.slots.length ≤ d.cap →
        d.slots.length + n ≤ capacity (reserve d n) ∧
        len_freelist (reserve d n) = len_freelist d ∧
        len (reserve d n) = len d ∧ (reserve d n).slots = d.slots) ∧
    (∃ c : Nat, (c10_state.map fun d => (len_freelist d, len d, capacity d))
        = some (0, 4, c) ∧ 3 < c) := by
  refine ⟨fun n => ⟨rfl, rfl, with_capacity_slots_length n⟩, ?_, 6, by decide, by decide⟩
  intro d n hlen
  unfold reserve
  by_cases hc : n ≤ d.cap - d.slots.length
  · rw [if_pos hc]
    exact ⟨by unfold capacity; omega, rfl, rfl, rfl⟩
  · rw [if_neg hc]
    exact ⟨Nat.le_max_right _ _, rfl, rfl, rfl⟩

/-- Witness for C10: with_capacity(3) pre-links three slots, and
reserving 10 on a fresh deque guarantees room for ten elements without
touching the slot list or the counters. -/
theorem C10_capacity_amended_witness :
    (len_freelist (with_capacity 3 : Deque Nat) = 3 ∧
     len (with_capacity 3 : Deque Nat) = 0 ∧
     (with_capacity 3 : Deque Nat).slots.length = 3) ∧
    ((new : Deque Nat).slots.length + 10 ≤
        capacity (reserve (new : Deque Nat) 10) ∧
     len_freelist (reserve (new : Deque Nat) 10) =
        len_freelist (new : Deque Nat) ∧
     len (reserve (new : Deque Nat) 10) = len (new : Deque Nat) ∧
     (reserve (new : Deque Nat) 10).slots = (new : Deque Nat).slots) :=
  ⟨C10_capacity_amended.1 3,
   C10_capacity_amended.2.1 new 10 (by decide)⟩

end TokenDeque
